import Mathlib

/-!
Shallow embedding of the video-summarization service
(`app.py`, `comparator.py`, `summarizer.py`, `video_processor.py`).

Python strings are sequences of code points; string primitives
(`str.split()`, `str.lower()`, `str.startswith`) are modelled on the
underlying `List Char` so that every definition is executable.
External inference services (sentence-transformer embeddings, the BART
summarization pipeline, its tokenizer) are out of scope per the spec and
enter as explicit service records (`EmbedSvc`, `SummarizerSvc`); real
arithmetic on scores is modelled exactly over `ℚ`.
-/

namespace VideoSummarization

/-- Python `str.split()` with no argument: split on runs of whitespace,
producing no empty tokens (`comparator.py` lines 27, 29, 31). -/
def pySplit (s : String) : List String :=
  ((s.data.splitOnP Char.isWhitespace).filter (fun w => w ≠ [])).map String.mk

/-- Python `str.lower()`, code-point-wise case mapping. -/
def pyLower (s : String) : String := String.mk (s.data.map Char.toLower)

/-- Python `len(summary.split())` (`comparator.py` line 29/42). -/
def wordCount (s : String) : ℕ := (pySplit s).length

/-- Python `set(x.lower().split())` (`comparator.py` lines 27 and 31). -/
def tokensOf (s : String) : Finset String := (pySplit (pyLower s)).toFinset

/-- Conciseness signal: `min(1.0, 140 / max(60, len(words)))`
(`comparator.py` line 30). -/
def conciseness (s : String) : ℚ :=
  min 1 ((140 : ℚ) / ((max 60 (wordCount s) : ℕ) : ℚ))

/-- Coverage signal:
`len(topic_keywords_set & summ_words) / max(1, len(topic_keywords_set))`
(`comparator.py` line 32). -/
def coverage (topic summary : String) : ℚ :=
  (((tokensOf topic) ∩ (tokensOf summary)).card : ℚ)
    / ((max 1 (tokensOf topic).card : ℕ) : ℚ)

/-- The external Embedding Service (sentence-transformer): one fixed vector
per input string, deterministic for a fixed model (spec section 6). The
batched `model.encode(summaries)` call is its element-wise map. -/
structure EmbedSvc where
  embed : String → List ℚ

/-- Dot product; `util.cos_sim` on embeddings produced with
`normalize_embeddings=True` (`comparator.py` lines 21-24). -/
def dot (a b : List ℚ) : ℚ := (List.zipWith (fun x y => x * y) a b).sum

/-- Semantic signal for one summary: cosine similarity between its embedding
and the topic embedding (`comparator.py` lines 21-24, 33). -/
def itemSemantic (E : EmbedSvc) (topic s : String) : ℚ :=
  dot (E.embed s) (E.embed topic)

/-- Weighted blend `0.65 * semantic + 0.2 * coverage + 0.15 * conciseness`
(`comparator.py` line 35). -/
def compositeScore (sem cov con : ℚ) : ℚ := 0.65 * sem + 0.2 * cov + 0.15 * con

/-- Round-half-to-even on rationals, the rounding rule of Python `round`
(binary floating point width abstracted away). -/
def roundHalfEven (q : ℚ) : ℤ :=
  if q - ⌊q⌋ < 1 / 2 then ⌊q⌋
  else if (1 / 2 : ℚ) < q - ⌊q⌋ then ⌊q⌋ + 1
  else if 2 ∣ ⌊q⌋ then ⌊q⌋ else ⌊q⌋ + 1

/-- Python `round(x, 4)` (`comparator.py` lines 38-41). -/
def pyRound4 (q : ℚ) : ℚ := ((roundHalfEven (q * 10000) : ℤ) : ℚ) / 10000

/-- One entry of the `details` diagnostics list (`comparator.py` lines 37-43). -/
structure ScoreDetails where
  semantic : ℚ
  coverage : ℚ
  conciseness : ℚ
  final : ℚ
  length_words : ℕ

instance : Inhabited ScoreDetails := ⟨⟨0, 0, 0, 0, 0⟩⟩

/-- Composite score of one summary against the topic
(`comparator.py` lines 28-36 for summary number `i`). -/
def itemScore (E : EmbedSvc) (topic s : String) : ℚ :=
  compositeScore (itemSemantic E topic s) (coverage topic s) (conciseness s)

/-- Diagnostics of one summary against the topic (`comparator.py` lines 37-43). -/
def itemDetails (E : EmbedSvc) (topic s : String) : ScoreDetails :=
  ⟨pyRound4 (itemSemantic E topic s), pyRound4 (coverage topic s),
   pyRound4 (conciseness s), pyRound4 (itemScore E topic s), wordCount s⟩

/-- `_compute_scores(summaries, topic_keywords)` (`comparator.py` lines 17-44):
the loop fills `results` and `details` with the per-item score and
diagnostics, the batch-encoded `sem_scores[i]` being the embedding of
`summaries[i]` against the topic embedding. -/
def computeScores (E : EmbedSvc) (summaries : List String) (topic : String) :
    List ℚ × List ScoreDetails :=
  (summaries.map (itemScore E topic), summaries.map (itemDetails E topic))

/-- Scanning loop of `np.argmax`: keep the current best value and its index,
replace only on a strictly greater value (so ties keep the earliest index). -/
def argmaxGo : List ℚ → ℚ → ℕ → ℕ → ℕ
  | [], _, bi, _ => bi
  | y :: ys, bv, bi, i => if bv < y then argmaxGo ys y i (i + 1) else argmaxGo ys bv bi (i + 1)

/-- `np.argmax` on a list of scores: index of the first occurrence of the
maximum; `argmax [] = 0` is never used (`choose_best` callers guard against
an empty summary list). -/
def argmax : List ℚ → ℕ
  | [] => 0
  | x :: xs => argmaxGo xs x 0 1

/-- `choose_best(summaries, topic_keywords)` (`comparator.py` lines 46-49). -/
def chooseBest (E : EmbedSvc) (summaries : List String) (topic : String) :
    ℕ × List ℚ × List ScoreDetails :=
  (argmax (computeScores E summaries topic).1,
   (computeScores E summaries topic).1,
   (computeScores E summaries topic).2)

/-! ### Response assembly (`app.py`) -/

/-- `str(s).startswith("ERROR:")` marker used to partition summaries
(`app.py` lines 159, 220): `safe_process` maps a failed item to the string
`"ERROR: …"`. -/
def isErrorSummary (s : String) : Bool := "ERROR:".data.isPrefixOf s.data

/-- One element of the `videos` list of the response (`app.py` lines 167-170). -/
structure VideoEntry where
  name : String
  summary : String
  score : ℚ
  details : ScoreDetails

instance : Inhabited VideoEntry := ⟨⟨"", "", 0, default⟩⟩

/-- One element of the `skipped` list of the response; download failures use
the key `url` instead of `name` in the JSON, modelled by the same pair. -/
structure SkipEntry where
  name : String
  error : String

instance : Inhabited SkipEntry := ⟨⟨"", ""⟩⟩

/-- JSON response shape of both comparison endpoints. -/
structure CompareResponse where
  topic : String
  videos : List VideoEntry
  skipped : List SkipEntry
  best_video : String

instance : Inhabited CompareResponse := ⟨⟨"", [], [], ""⟩⟩

/-- Python `zip(filtered_names, filtered_summaries, scores, details)`
comprehension building `videos` (`app.py` lines 167-170, 228-231);
`zip` truncates to the shortest list. -/
def mkVideos (ns ss : List String) (scs : List ℚ) (ds : List ScoreDetails) :
    List VideoEntry :=
  ((ns.zip ss).zip (scs.zip ds)).map (fun p => ⟨p.1.1, p.1.2, p.2.1, p.2.2⟩)

/-- `valid_indices = [i for i, s in enumerate(summaries) if not str(s).startswith("ERROR:")]`
(`app.py` lines 159, 220). -/
def validIndices (summaries : List String) : List ℕ :=
  (List.range summaries.length).filter (fun i => !isErrorSummary (summaries.getD i ""))

/-- `filtered_summaries = [summaries[i] for i in valid_indices]` (`app.py` line 162/223). -/
def filteredSummaries (summaries : List String) : List String :=
  (validIndices summaries).map (fun i => summaries.getD i "")

/-- `filtered_names = [video_names[i] for i in valid_indices]` (`app.py` line 163/224). -/
def filteredNames (names summaries : List String) : List String :=
  (validIndices summaries).map (fun i => names.getD i "")

/-- Per-item skip entries
`[{name: names[i], error: summaries[i]} for i in range(len(summaries)) if i not in valid_indices]`
(`app.py` lines 171-174, 232-235). -/
def skippedEntries (names summaries : List String) : List SkipEntry :=
  ((List.range summaries.length).filter (fun i => !(validIndices summaries).contains i)).map
    (fun i => ⟨names.getD i "", summaries.getD i ""⟩)

/-- `POST /compare_videos/` response assembly (`app.py` lines 158-176), as a
function of the original names and the per-item `safe_process` outcomes
(a summary, or an `"ERROR: …"` string); `none` models the
`HTTPException(500)` raised when every item failed. -/
def compare_videos (E : EmbedSvc) (topic : String) (names summaries : List String) :
    Option CompareResponse :=
  if validIndices summaries = [] then none
  else some
    ⟨topic,
     mkVideos (filteredNames names summaries) (filteredSummaries summaries)
       (chooseBest E (filteredSummaries summaries) topic).2.1
       (chooseBest E (filteredSummaries summaries) topic).2.2,
     skippedEntries names summaries,
     (filteredNames names summaries).getD (chooseBest E (filteredSummaries summaries) topic).1 ""⟩

/-- `POST /compare_videos_urls` response assembly (`app.py` lines 178-237).
Environment inputs: `downloads` is the per-URL outcome of
`download_video_async` under `gather(..., return_exceptions=True)`
(exception message, or `(path, title)`); `copyR` is the outcome of the
"unlocked copy" `shutil.copyfile` step for a path (`some dst` or a failure);
`procR` is the outcome of `safe_process` for a path. `none` models the
request-level `HTTPException`s (400 empty list, 502 all downloads failed,
500 all items failed). -/
def compare_videos_urls (E : EmbedSvc) (topic : String) (urls : List String)
    (downloads : List (Except String (String × String)))
    (copyR : String → Option String) (procR : String → String) :
    Option CompareResponse :=
  if urls = [] then none
  else
    let names := downloads.filterMap (fun d => match d with
      | .ok pt => some pt.2
      | .error _ => none)
    let paths := downloads.filterMap (fun d => match d with
      | .ok pt => some pt.1
      | .error _ => none)
    if paths = [] then none
    else
      let dlErrors : List SkipEntry := (urls.zip downloads).filterMap (fun ud =>
        match ud.2 with
        | .error e => some ⟨ud.1, e⟩
        | .ok _ => none)
      let unlocked := paths.filterMap copyR
      let copyErrors : List SkipEntry := paths.filterMap (fun p =>
        match copyR p with
        | some _ => none
        | none => some ⟨p, "copy_failed"⟩)
      let errors := dlErrors ++ copyErrors
      let paths2 := if unlocked = [] then paths else unlocked
      let summaries := paths2.map procR
      if validIndices summaries = [] then none
      else some
        ⟨topic,
         mkVideos (filteredNames names summaries) (filteredSummaries summaries)
           (chooseBest E (filteredSummaries summaries) topic).2.1
           (chooseBest E (filteredSummaries summaries) topic).2.2,
         errors ++ skippedEntries names summaries,
         (filteredNames names summaries).getD
           (chooseBest E (filteredSummaries summaries) topic).1 ""⟩

/-! ### Chunked summarizer (`summarizer.py`) -/

/-- `_MAX_SRC_TOKENS = 900` (`summarizer.py` line 9). -/
def MAX_SRC_TOKENS : ℕ := 900

/-- `_CHUNK_TOKENS = 800` (`summarizer.py` line 10). -/
def CHUNK_TOKENS : ℕ := 800

/-- The external Summarization Service and its tokenizer (spec section 6):
`encode`/`decode` are the BART tokenizer (without special tokens), `run` is
one `model(block, max_length, min_length, do_sample=False)` call, `none`
standing for a raised service-level error. -/
structure SummarizerSvc where
  encode : String → List ℕ
  decode : List ℕ → String
  run : String → ℕ → ℕ → Option String

/-- `_token_len(text)` (`summarizer.py` lines 30-32). -/
def tokenLen (S : SummarizerSvc) (s : String) : ℕ := (S.encode s).length

/-- The slicing loop `ids[i : i + max_tokens] for i in range(0, len(ids), max_tokens)`
(`summarizer.py` lines 39-41): consecutive windows of size `n`. The `n = 0`
case never arises in the program (window sizes are 800 and 900; Python
`range` would reject a zero step). -/
def chunksOf {α : Type} (n : ℕ) (l : List α) : List (List α) :=
  match l, n with
  | [], _ => []
  | a :: t, 0 => [a :: t]
  | a :: t, m + 1 => (a :: t).take (m + 1) :: chunksOf (m + 1) ((a :: t).drop (m + 1))
termination_by l.length
decreasing_by simp [List.length_drop]; omega

/-- `_split_by_tokens(text, max_tokens)` (`summarizer.py` lines 35-42). -/
def splitByTokens (S : SummarizerSvc) (text : String) (maxTokens : ℕ) : List String :=
  (chunksOf maxTokens (S.encode text)).map S.decode

/-- Length-bound clamping for small inputs (`summarizer.py` lines 48-54). -/
def clampBounds (tlen maxLen minLen : ℕ) : ℕ × ℕ :=
  if tlen < 30 then (min maxLen 60, 10)
  else if tlen < 100 then (min maxLen 120, min minLen 30)
  else (maxLen, minLen)

/-- The bounds actually passed to the first service call from
`_summarize_block` (the reassigned `max_len`/`min_len` of
`summarizer.py` lines 47-54). -/
def effBounds (S : SummarizerSvc) (block : String) (maxLen minLen : ℕ) : ℕ × ℕ :=
  clampBounds (tokenLen S block) maxLen minLen

/-- `_summarize_block(block, max_len, min_len)` (`summarizer.py` lines 45-61):
clamp the bounds to the input size, call the service once, and on failure
retry exactly once with `max(60, max_len // 2)` and `max(10, min_len // 2)`;
a second failure propagates (`none`). -/
def summarizeBlock (S : SummarizerSvc) (block : String) (maxLen minLen : ℕ) :
    Option String :=
  match S.run block (effBounds S block maxLen minLen).1 (effBounds S block maxLen minLen).2 with
  | some out => some out
  | none => S.run block (max 60 ((effBounds S block maxLen minLen).1 / 2))
      (max 10 ((effBounds S block maxLen minLen).2 / 2))

/-- `summarize_text(text, max_len)` (`summarizer.py` lines 64-84). The
Python guard `if not text or not text.strip()` holds exactly when every
code point of `text` is whitespace (the empty string included). -/
def summarize_text (S : SummarizerSvc) (text : String) (maxLen : ℕ) : Option String :=
  if text.data.all Char.isWhitespace then some "No content to summarize."
  else if tokenLen S text ≤ MAX_SRC_TOKENS then
    summarizeBlock S text maxLen (min 80 (max 40 (maxLen / 3)))
  else
    (List.mapM (fun p => summarizeBlock S p 160 40) (splitByTokens S text CHUNK_TOKENS)).bind
      (fun ps =>
        let combined := String.intercalate " " ps
        let combined2 := if MAX_SRC_TOKENS < tokenLen S combined
          then (splitByTokens S combined MAX_SRC_TOKENS).headD "" else combined
        summarizeBlock S combined2 maxLen (min 100 (max 50 (maxLen / 2))))

/-- Modelled from the spec's map-reduce description (spec section 4.2): split
the transcript into fixed-size non-overlapping token windows, summarize each
window independently with the moderate fixed bound (160/40), concatenate the
partial summaries in window order, truncate by token count to the budget
boundary if the concatenation still exceeds the budget, and run one final
summarization pass with the caller's requested length bound. -/
def specMapReduce (S : SummarizerSvc) (text : String) (maxLen : ℕ) : Option String :=
  (List.mapM (fun p => summarizeBlock S p 160 40) (splitByTokens S text CHUNK_TOKENS)).bind
    (fun ps =>
      let combined := String.intercalate " " ps
      let combined2 := if MAX_SRC_TOKENS < tokenLen S combined
        then (splitByTokens S combined MAX_SRC_TOKENS).headD "" else combined
      summarizeBlock S combined2 maxLen (min 100 (max 50 (maxLen / 2))))

/-! ### Remote download polling fallback (`app.py` lines 111-127) -/

/-- Filesystem environment observed by the polling loop of
`_download_with_yt_dlp`: at poll iteration `i`, `found i` is the first
`glob(f"{tmp_id}.*")` match (if any) and `replaceOk i` tells whether the
atomic `Path.replace` into the expected path succeeds; `expectedExists0`
is the initial `expected.exists()` test, `expectedFinal` tells whether the
expected path exists at the final check without a successful replace. -/
structure PollEnv where
  found : ℕ → Option String
  replaceOk : ℕ → Bool
  expectedExists0 : Bool
  expectedFinal : Bool

/-- The `for _ in range(10)` retry loop (`app.py` lines 115-125): fuel counts
the remaining iterations, `i` the current one, the third argument the
current `last_found` (reassigned from the glob result on every iteration);
returns the final `last_found` and whether a `replace` succeeded (`break`). -/
def pollLoop (env : PollEnv) : ℕ → ℕ → Option String → Option String × Bool
  | 0, _, last => (last, false)
  | f + 1, i, _ =>
    match env.found i with
    | some p => if env.replaceOk i then (some p, true) else pollLoop env f (i + 1) (some p)
    | none => pollLoop env f (i + 1) none

/-- The file path computed by `_download_with_yt_dlp` after a successful
`extract_info` (`app.py` lines 111-126):
`str(expected if expected.exists() else (last_found if last_found else expected))`. -/
def downloadResolve (env : PollEnv) (expected : String) : String :=
  if env.expectedExists0 then expected
  else if (pollLoop env 10 0 none).2 || env.expectedFinal then expected
  else match (pollLoop env 10 0 none).1 with
    | some p => p
    | none => expected

/-- Outcome of the acquisition step after a successful fetch: the source
returns `(file_path, display)` on every path of the polling fallback and
raises nothing there, so the result is always `Except.ok` — there is no
error branch in the code being modelled. -/
def downloadAcquire (env : PollEnv) (expected : String) : Except String String :=
  Except.ok (downloadResolve env expected)

/-! ### Window lemmas for `chunksOf` -/

theorem chunksOf_nil {α : Type} (n : ℕ) : chunksOf n ([] : List α) = [] := by
  rw [chunksOf]

theorem chunksOf_cons {α : Type} (m : ℕ) (a : α) (t : List α) :
    chunksOf (m + 1) (a :: t)
      = (a :: t).take (m + 1) :: chunksOf (m + 1) ((a :: t).drop (m + 1)) := by
  rw [chunksOf]

theorem chunksOf_flatten_aux {α : Type} :
    ∀ (N n : ℕ) (l : List α), l.length ≤ N → (chunksOf n l).flatten = l := by
  intro N
  induction N with
  | zero =>
    intro n l hl
    have hnil : l = [] := List.eq_nil_of_length_eq_zero (Nat.le_zero.mp hl)
    subst hnil
    rw [chunksOf_nil]
    rfl
  | succ N ih =>
    intro n l hl
    cases l with
    | nil => rw [chunksOf_nil]; rfl
    | cons a t =>
      cases n with
      | zero => rw [chunksOf]; simp
      | succ m =>
        have h' : ((a :: t).drop (m + 1)).length ≤ N := by
          simp only [List.length_drop, List.length_cons] at hl ⊢
          omega
        rw [chunksOf_cons, List.flatten_cons, ih (m + 1) _ h', List.take_append_drop]

/-- The token windows concatenate back to the original token list:
they cover it exactly, in order and without overlap. -/
theorem chunksOf_flatten {α : Type} (n : ℕ) (l : List α) : (chunksOf n l).flatten = l :=
  chunksOf_flatten_aux l.length n l le_rfl

theorem chunksOf_le_aux {α : Type} :
    ∀ (N n : ℕ) (l : List α), l.length ≤ N → 0 < n → ∀ c ∈ chunksOf n l, c.length ≤ n := by
  intro N
  induction N with
  | zero =>
    intro n l hl _
    have hnil : l = [] := List.eq_nil_of_length_eq_zero (Nat.le_zero.mp hl)
    subst hnil
    rw [chunksOf_nil]
    intro c hc
    cases hc
  | succ N ih =>
    intro n l hl hn
    cases l with
    | nil =>
      rw [chunksOf_nil]
      intro c hc
      cases hc
    | cons a t =>
      cases n with
      | zero => cases hn
      | succ m =>
        rw [chunksOf_cons]
        intro c hc
        rcases List.mem_cons.mp hc with hc | hc
        · subst hc
          simp [List.length_take]
        · have h' : ((a :: t).drop (m + 1)).length ≤ N := by
            simp only [List.length_drop, List.length_cons] at hl ⊢
            omega
          exact ih (m + 1) _ h' hn c hc

/-- Every token window has at most `n` tokens (for positive window size). -/
theorem chunksOf_le {α : Type} (n : ℕ) (l : List α) (hn : 0 < n) :
    ∀ c ∈ chunksOf n l, c.length ≤ n :=
  chunksOf_le_aux l.length n l le_rfl hn

theorem chunksOf_dropLast_aux {α : Type} :
    ∀ (N n : ℕ) (l : List α), l.length ≤ N → 0 < n →
      ∀ c ∈ (chunksOf n l).dropLast, c.length = n := by
  intro N
  induction N with
  | zero =>
    intro n l hl _
    have hnil : l = [] := List.eq_nil_of_length_eq_zero (Nat.le_zero.mp hl)
    subst hnil
    rw [chunksOf_nil]
    intro c hc
    cases hc
  | succ N ih =>
    intro n l hl hn
    cases l with
    | nil =>
      rw [chunksOf_nil]
      intro c hc
      cases hc
    | cons a t =>
      cases n with
      | zero => cases hn
      | succ m =>
        rw [chunksOf_cons]
        cases hrec : chunksOf (m + 1) ((a :: t).drop (m + 1)) with
        | nil =>
          intro c hc
          simp at hc
        | cons r rs =>
          intro c hc
          rw [List.dropLast_cons₂] at hc
          have hdrop : (a :: t).drop (m + 1) ≠ [] := by
            intro hd
            rw [hd, chunksOf_nil] at hrec
            cases hrec
          have hlen : m + 1 < (a :: t).length := by
            by_contra hcon
            exact hdrop (List.drop_eq_nil_of_le (by omega))
          rcases List.mem_cons.mp hc with hc | hc
          · subst hc
            simp only [List.length_take]
            omega
          · have h' : ((a :: t).drop (m + 1)).length ≤ N := by
              simp only [List.length_drop, List.length_cons] at hl ⊢
              omega
            rw [← hrec] at hc
            exact ih (m + 1) _ h' hn c hc

/-- Every token window except possibly the last has exactly `n` tokens:
the windows are fixed-size. -/
theorem chunksOf_dropLast {α : Type} (n : ℕ) (l : List α) (hn : 0 < n) :
    ∀ c ∈ (chunksOf n l).dropLast, c.length = n :=
  chunksOf_dropLast_aux l.length n l le_rfl hn

/-! ### Claim C3, C4, C5 — scoring formulas -/

/-- Claim C3: for every summary and topic, the composite score equals
`0.65 * semantic + 0.20 * coverage + 0.15 * conciseness`, the three weights
sum to exactly 1, and the composite is a pure function of those three
inputs: the program's i-th score is `compositeScore` — a plain function
with no other arguments and no state — applied to the three per-item
signals of the i-th summary. -/
theorem c3_composite (E : EmbedSvc) (topic : String) (summaries : List String) (i : ℕ)
    (h : i < summaries.length) :
    (computeScores E summaries topic).1.getD i 0
      = compositeScore (itemSemantic E topic (summaries.getD i ""))
          (coverage topic (summaries.getD i "")) (conciseness (summaries.getD i ""))
    ∧ (∀ a b c : ℚ, compositeScore a b c = 0.65 * a + 0.2 * b + 0.15 * c)
    ∧ ((0.65 : ℚ) + 0.2 + 0.15 = 1) := by
  refine ⟨?_, fun a b c => rfl, by norm_num⟩
  have hm : i < (summaries.map (itemScore E topic)).length := by simpa using h
  show (summaries.map (itemScore E topic)).getD i 0 = _
  rw [List.getD_eq_getElem _ _ hm, List.getElem_map, ← List.getD_eq_getElem summaries "" h]
  rfl

theorem c3_composite_witness :
    0 < (["x"] : List String).length ∧
    ((computeScores ⟨fun _ => []⟩ ["x"] "t").1.getD 0 0
      = compositeScore (itemSemantic ⟨fun _ => []⟩ "t" ((["x"] : List String).getD 0 ""))
          (coverage "t" ((["x"] : List String).getD 0 ""))
          (conciseness ((["x"] : List String).getD 0 ""))
      ∧ (∀ a b c : ℚ, compositeScore a b c = 0.65 * a + 0.2 * b + 0.15 * c)
      ∧ ((0.65 : ℚ) + 0.2 + 0.15 = 1)) :=
  ⟨by decide, c3_composite ⟨fun _ => []⟩ "t" ["x"] 0 (by decide)⟩

/-- Claim C4: coverage equals the distinct-token intersection count divided
by `max(1, |topic tokens|)`, lies in `[0, 1]`, and is 0 for every summary
whenever the topic token set is empty. -/
theorem c4_coverage (topic summary : String) :
    coverage topic summary
      = (((tokensOf topic) ∩ (tokensOf summary)).card : ℚ)
          / ((max 1 (tokensOf topic).card : ℕ) : ℚ)
    ∧ 0 ≤ coverage topic summary
    ∧ coverage topic summary ≤ 1
    ∧ (tokensOf topic = ∅ → coverage topic summary = 0) := by
  refine ⟨rfl, div_nonneg (Nat.cast_nonneg _) (Nat.cast_nonneg _), ?_, ?_⟩
  · have hd : (0 : ℚ) < ((max 1 (tokensOf topic).card : ℕ) : ℚ) := by
      have h1 : 0 < max 1 (tokensOf topic).card := lt_of_lt_of_le one_pos (le_max_left _ _)
      exact_mod_cast h1
    rw [coverage, div_le_one hd]
    have hcard : ((tokensOf topic) ∩ (tokensOf summary)).card ≤ max 1 (tokensOf topic).card :=
      le_trans (Finset.card_le_card Finset.inter_subset_left) (le_max_right _ _)
    exact_mod_cast hcard
  · intro h
    rw [coverage, h]
    simp

theorem c4_coverage_witness :
    tokensOf "" = ∅ ∧ coverage "" "a" = 0 :=
  ⟨by decide, (c4_coverage "" "a").2.2.2 (by decide)⟩

/-- Claim C5: conciseness equals `min(1, 140 / max(60, wordCount(summary)))`
with target words 140 and lower bound 60, and always lies in `(0, 1]`. -/
theorem c5_conciseness (s : String) :
    conciseness s = min 1 ((140 : ℚ) / ((max 60 (wordCount s) : ℕ) : ℚ))
    ∧ 0 < conciseness s
    ∧ conciseness s ≤ 1 := by
  refine ⟨rfl, ?_, min_le_left _ _⟩
  have hd : (0 : ℚ) < ((max 60 (wordCount s) : ℕ) : ℚ) := by
    have h1 : 0 < max 60 (wordCount s) := lt_of_lt_of_le (by norm_num) (le_max_left _ _)
    exact_mod_cast h1
  exact lt_min one_pos (div_pos (by norm_num) hd)

/-! ### Claim C6 — map-reduce composition for over-budget transcripts -/

/-- Conjunction established for claim C6: on an over-budget transcript,
`summarize_text` equals the spec-described map-reduce pipeline
(`specMapReduce`), and the token windows it uses concatenate back to the
transcript's token list (exact cover, in order, no overlap), each being at
most — and all but possibly the last exactly — `CHUNK_TOKENS` long. -/
def C6Prop (S : SummarizerSvc) (text : String) (maxLen : ℕ) : Prop :=
  summarize_text S text maxLen = specMapReduce S text maxLen
  ∧ (chunksOf CHUNK_TOKENS (S.encode text)).flatten = S.encode text
  ∧ (∀ c ∈ chunksOf CHUNK_TOKENS (S.encode text), c.length ≤ CHUNK_TOKENS)
  ∧ (∀ c ∈ (chunksOf CHUNK_TOKENS (S.encode text)).dropLast, c.length = CHUNK_TOKENS)

/-- Claim C6: for every transcript over the 900-token input budget (and not
all whitespace, which returns early), `summarize_text` performs exactly the
two-stage map-reduce described by the spec: fixed-size non-overlapping
800-token windows, each summarized independently with the fixed moderate
bound (160/40), partial summaries joined in window order, the concatenation
truncated to its first 900-token window if still over budget, and one final
pass with the caller's requested `max_len`. -/
theorem c6_map_reduce (S : SummarizerSvc) (text : String) (maxLen : ℕ)
    (h1 : text.data.all Char.isWhitespace = false)
    (h2 : MAX_SRC_TOKENS < tokenLen S text) :
    C6Prop S text maxLen := by
  refine ⟨?_, chunksOf_flatten _ _,
    chunksOf_le _ _ (by norm_num [CHUNK_TOKENS]),
    chunksOf_dropLast _ _ (by norm_num [CHUNK_TOKENS])⟩
  have h2' : ¬ (tokenLen S text ≤ MAX_SRC_TOKENS) := by omega
  simp [summarize_text, specMapReduce, h1, h2']

/-- Service used by witnesses: every input encodes to 1000 tokens. -/
def wideSvc : SummarizerSvc :=
  ⟨fun _ => List.replicate 1000 0, fun _ => "", fun _ _ _ => some "ok"⟩

theorem c6_map_reduce_witness :
    ("a".data.all Char.isWhitespace = false)
    ∧ MAX_SRC_TOKENS < tokenLen wideSvc "a"
    ∧ C6Prop wideSvc "a" 200 :=
  ⟨by decide, by norm_num [wideSvc, tokenLen, MAX_SRC_TOKENS],
   c6_map_reduce wideSvc "a" 200 (by decide)
     (by norm_num [wideSvc, tokenLen, MAX_SRC_TOKENS])⟩

/-! ### Claim C7 — exactly one retry with halved bounds -/

/-- Claim C7: for every block whose first summarization call fails, the call
is retried exactly once with the effective max/min bounds halved and floored
at 60/10, and the retry's outcome — success or failure — is the result, so
a failing retry propagates and no second retry ever happens; when the first
call succeeds its output is returned with no retry at all. -/
theorem c7_retry_once (S : SummarizerSvc) (block : String) (maxLen minLen : ℕ) :
    (S.run block (effBounds S block maxLen minLen).1 (effBounds S block maxLen minLen).2 = none →
      summarizeBlock S block maxLen minLen
        = S.run block (max 60 ((effBounds S block maxLen minLen).1 / 2))
            (max 10 ((effBounds S block maxLen minLen).2 / 2)))
    ∧ (∀ o, S.run block (effBounds S block maxLen minLen).1
          (effBounds S block maxLen minLen).2 = some o →
        summarizeBlock S block maxLen minLen = some o) := by
  constructor
  · intro h
    simp [summarizeBlock, h]
  · intro o h
    simp [summarizeBlock, h]

/-- Service used by witnesses: every summarization call fails. -/
def failSvc : SummarizerSvc := ⟨fun _ => [], fun _ => "", fun _ _ _ => none⟩

theorem c7_retry_once_witness :
    failSvc.run "b" (effBounds failSvc "b" 200 80).1 (effBounds failSvc "b" 200 80).2 = none
    ∧ summarizeBlock failSvc "b" 200 80 = none :=
  ⟨rfl, ((c7_retry_once failSvc "b" 200 80).1 rfl).trans rfl⟩

/-! ### Claim C10 — whitespace-only input short-circuits -/

/-- Claim C10: for every input that is empty or all-whitespace,
`summarize_text` returns the fixed string `"No content to summarize."`;
the result is the same for every service `S` — including one whose every
call fails — so the Summarization Service is never invoked. -/
theorem c10_no_content (S : SummarizerSvc) (text : String) (maxLen : ℕ)
    (h : text.data.all Char.isWhitespace = true) :
    summarize_text S text maxLen = some "No content to summarize." := by
  simp [summarize_text, h]

theorem c10_no_content_witness :
    (" ".data.all Char.isWhitespace = true)
    ∧ summarize_text failSvc " " 200 = some "No content to summarize." :=
  ⟨by decide, c10_no_content failSvc " " 200 (by decide)⟩

/-! ### Claim C2 — stable argmax and best_video -/

theorem argmaxGo_spec (ys : List ℚ) (bv : ℚ) (bi i : ℕ) :
    (argmaxGo ys bv bi i = bi ∧ ∀ j, j < ys.length → ys.getD j 0 ≤ bv)
    ∨ (∃ k, k < ys.length ∧ argmaxGo ys bv bi i = i + k ∧ bv < ys.getD k 0
        ∧ (∀ j, j < ys.length → ys.getD j 0 ≤ ys.getD k 0)
        ∧ (∀ j, j < k → ys.getD j 0 < ys.getD k 0)) := by
  induction ys generalizing bv bi i with
  | nil =>
    left
    exact ⟨rfl, fun j hj => absurd hj (by simp)⟩
  | cons y ys ih =>
    by_cases h : bv < y
    · rcases ih y i (i + 1) with ⟨heq, hle⟩ | ⟨k, hk, heq, hbv, hmax, hfirst⟩
      · right
        refine ⟨0, by simp, ?_, by simpa using h, ?_,
          fun j hj => absurd hj (Nat.not_lt_zero j)⟩
        · show (if bv < y then argmaxGo ys y i (i + 1) else argmaxGo ys bv bi (i + 1)) = i + 0
          rw [if_pos h, heq]
          omega
        · intro j hj
          cases j with
          | zero => simp
          | succ j' =>
            simp only [List.getD_cons_succ, List.getD_cons_zero]
            exact hle j' (by simp only [List.length_cons] at hj; omega)
      · right
        refine ⟨k + 1, by simp only [List.length_cons]; omega, ?_, ?_, ?_, ?_⟩
        · show (if bv < y then argmaxGo ys y i (i + 1) else argmaxGo ys bv bi (i + 1)) = i + (k + 1)
          rw [if_pos h, heq]
          omega
        · simpa only [List.getD_cons_succ] using h.trans hbv
        · intro j hj
          cases j with
          | zero =>
            simpa only [List.getD_cons_zero, List.getD_cons_succ] using le_of_lt hbv
          | succ j' =>
            simp only [List.getD_cons_succ]
            exact hmax j' (by simp only [List.length_cons] at hj; omega)
        · intro j hj
          cases j with
          | zero => simpa only [List.getD_cons_zero, List.getD_cons_succ] using hbv
          | succ j' =>
            simp only [List.getD_cons_succ]
            exact hfirst j' (by omega)
    · have hyb : y ≤ bv := not_lt.mp h
      rcases ih bv bi (i + 1) with ⟨heq, hle⟩ | ⟨k, hk, heq, hbv, hmax, hfirst⟩
      · left
        constructor
        · show (if bv < y then argmaxGo ys y i (i + 1) else argmaxGo ys bv bi (i + 1)) = bi
          rw [if_neg h, heq]
        · intro j hj
          cases j with
          | zero => simpa only [List.getD_cons_zero] using hyb
          | succ j' =>
            simp only [List.getD_cons_succ]
            exact hle j' (by simp only [List.length_cons] at hj; omega)
      · right
        refine ⟨k + 1, by simp only [List.length_cons]; omega, ?_, ?_, ?_, ?_⟩
        · show (if bv < y then argmaxGo ys y i (i + 1) else argmaxGo ys bv bi (i + 1)) = i + (k + 1)
          rw [if_neg h, heq]
          omega
        · simpa only [List.getD_cons_succ] using hbv
        · intro j hj
          cases j with
          | zero =>
            simpa only [List.getD_cons_zero, List.getD_cons_succ]
              using le_of_lt (lt_of_le_of_lt hyb hbv)
          | succ j' =>
            simp only [List.getD_cons_succ]
            exact hmax j' (by simp only [List.length_cons] at hj; omega)
        · intro j hj
          cases j with
          | zero =>
            simpa only [List.getD_cons_zero, List.getD_cons_succ]
              using lt_of_le_of_lt hyb hbv
          | succ j' =>
            simp only [List.getD_cons_succ]
            exact hfirst j' (by omega)

/-- The scanning argmax returns a valid index holding the maximum, and every
strictly earlier index holds a strictly smaller value (first-occurrence
tie-breaking). -/
theorem argmax_spec (l : List ℚ) (hl : l ≠ []) :
    argmax l < l.length
    ∧ (∀ j, j < l.length → l.getD j 0 ≤ l.getD (argmax l) 0)
    ∧ (∀ j, j < argmax l → l.getD j 0 < l.getD (argmax l) 0) := by
  cases l with
  | nil => exact absurd rfl hl
  | cons x xs =>
    have hdef : argmax (x :: xs) = argmaxGo xs x 0 1 := rfl
    rcases argmaxGo_spec xs x 0 1 with ⟨heq, hle⟩ | ⟨k, hk, heq, hbv, hmax, hfirst⟩
    · rw [hdef, heq]
      refine ⟨by simp, ?_, fun j hj => absurd hj (Nat.not_lt_zero j)⟩
      intro j hj
      cases j with
      | zero => simp
      | succ j' =>
        simp only [List.getD_cons_succ, List.getD_cons_zero]
        exact hle j' (by simp only [List.length_cons] at hj; omega)
    · rw [hdef, heq]
      have h1k : 1 + k = k + 1 := Nat.add_comm 1 k
      refine ⟨by simp only [List.length_cons]; omega, ?_, ?_⟩
      · intro j hj
        rw [h1k]
        simp only [List.getD_cons_succ]
        cases j with
        | zero => simpa only [List.getD_cons_zero] using le_of_lt hbv
        | succ j' =>
          simp only [List.getD_cons_succ]
          exact hmax j' (by simp only [List.length_cons] at hj; omega)
      · intro j hj
        rw [h1k]
        simp only [List.getD_cons_succ]
        cases j with
        | zero => simpa only [List.getD_cons_zero] using hbv
        | succ j' =>
          simp only [List.getD_cons_succ]
          exact hfirst j' (by omega)

theorem computeScores_fst_length (E : EmbedSvc) (l : List String) (t : String) :
    (computeScores E l t).1.length = l.length := by
  simp [computeScores]

theorem computeScores_snd_length (E : EmbedSvc) (l : List String) (t : String) :
    (computeScores E l t).2.length = l.length := by
  simp [computeScores]

theorem mkVideos_length (ns ss : List String) (scs : List ℚ) (ds : List ScoreDetails)
    (h1 : ss.length = ns.length) (h2 : scs.length = ns.length) (h3 : ds.length = ns.length) :
    (mkVideos ns ss scs ds).length = ns.length := by
  simp [mkVideos, h1, h2, h3]

theorem mkVideos_map_name (ns ss : List String) (scs : List ℚ) (ds : List ScoreDetails)
    (h1 : ss.length = ns.length) (h2 : scs.length = ns.length) (h3 : ds.length = ns.length) :
    (mkVideos ns ss scs ds).map VideoEntry.name = ns := by
  unfold mkVideos
  rw [List.map_map]
  have hf : (VideoEntry.name ∘ fun p : (String × String) × (ℚ × ScoreDetails) =>
      (⟨p.1.1, p.1.2, p.2.1, p.2.2⟩ : VideoEntry)) = Prod.fst ∘ Prod.fst := rfl
  rw [hf, ← List.map_map]
  have hA : (ns.zip ss).length ≤ (scs.zip ds).length := by
    simp [h1, h2, h3]
  rw [List.map_fst_zip _ _ hA, List.map_fst_zip _ _ (le_of_eq h1.symm)]

/-- Conjunction established for claim C2: the chosen index is a valid index
of the score list, holds the maximum score, every strictly earlier index
holds a strictly smaller score (first-occurrence tie-breaking), and the
response's `best_video` is the filtered display name at that index — which
is the name of the `videos` entry at that index. -/
def C2Prop (E : EmbedSvc) (topic : String) (names summaries : List String) : Prop :=
  (chooseBest E (filteredSummaries summaries) topic).1
      < (computeScores E (filteredSummaries summaries) topic).1.length
  ∧ (∀ j, j < (computeScores E (filteredSummaries summaries) topic).1.length →
      (computeScores E (filteredSummaries summaries) topic).1.getD j 0
        ≤ (computeScores E (filteredSummaries summaries) topic).1.getD
            (chooseBest E (filteredSummaries summaries) topic).1 0)
  ∧ (∀ j, j < (chooseBest E (filteredSummaries summaries) topic).1 →
      (computeScores E (filteredSummaries summaries) topic).1.getD j 0
        < (computeScores E (filteredSummaries summaries) topic).1.getD
            (chooseBest E (filteredSummaries summaries) topic).1 0)
  ∧ ((compare_videos E topic names summaries).getD default).best_video
      = (filteredNames names summaries).getD
          (chooseBest E (filteredSummaries summaries) topic).1 ""
  ∧ ((compare_videos E topic names summaries).getD default).best_video
      = (((compare_videos E topic names summaries).getD default).videos.getD
          (chooseBest E (filteredSummaries summaries) topic).1 default).name

/-- Claim C2: for every batch with at least one succeeded summary,
`choose_best` returns the index of the maximum composite score with ties
resolved to the first maximal occurrence, and the response's `best_video`
is the display name of the entry at that index. -/
theorem c2_choose_best (E : EmbedSvc) (topic : String) (names summaries : List String)
    (hv : validIndices summaries ≠ []) : C2Prop E topic names summaries := by
  have hfs_ne : filteredSummaries summaries ≠ [] := by
    intro hmap
    exact hv (by simpa [filteredSummaries] using hmap)
  have hne : (computeScores E (filteredSummaries summaries) topic).1 ≠ [] := by
    simpa [computeScores] using hfs_ne
  obtain ⟨hlt, hmax, hfirst⟩ := argmax_spec _ hne
  have hresp : compare_videos E topic names summaries = some
      ⟨topic,
       mkVideos (filteredNames names summaries) (filteredSummaries summaries)
         (chooseBest E (filteredSummaries summaries) topic).2.1
         (chooseBest E (filteredSummaries summaries) topic).2.2,
       skippedEntries names summaries,
       (filteredNames names summaries).getD
         (chooseBest E (filteredSummaries summaries) topic).1 ""⟩ := by
    simp [compare_videos, hv]
  have hfn_len : (filteredNames names summaries).length
      = (filteredSummaries summaries).length := by
    simp [filteredNames, filteredSummaries]
  have hscs_len : (chooseBest E (filteredSummaries summaries) topic).2.1.length
      = (filteredNames names summaries).length := by
    rw [hfn_len]
    exact computeScores_fst_length E _ topic
  have hds_len : (chooseBest E (filteredSummaries summaries) topic).2.2.length
      = (filteredNames names summaries).length := by
    rw [hfn_len]
    exact computeScores_snd_length E _ topic
  have hvideos_len : (mkVideos (filteredNames names summaries) (filteredSummaries summaries)
      (chooseBest E (filteredSummaries summaries) topic).2.1
      (chooseBest E (filteredSummaries summaries) topic).2.2).length
      = (filteredNames names summaries).length :=
    mkVideos_length _ _ _ _ hfn_len.symm hscs_len hds_len
  have hidx_fn : (chooseBest E (filteredSummaries summaries) topic).1
      < (filteredNames names summaries).length := by
    rw [hfn_len, ← computeScores_fst_length E (filteredSummaries summaries) topic]
    exact hlt
  refine ⟨hlt, hmax, hfirst, ?_, ?_⟩
  · rw [hresp]
    rfl
  · rw [hresp]
    show (filteredNames names summaries).getD
        (chooseBest E (filteredSummaries summaries) topic).1 ""
      = ((mkVideos (filteredNames names summaries) (filteredSummaries summaries)
          (chooseBest E (filteredSummaries summaries) topic).2.1
          (chooseBest E (filteredSummaries summaries) topic).2.2).getD
            (chooseBest E (filteredSummaries summaries) topic).1 default).name
    have hvl : (chooseBest E (filteredSummaries summaries) topic).1
        < (mkVideos (filteredNames names summaries) (filteredSummaries summaries)
            (chooseBest E (filteredSummaries summaries) topic).2.1
            (chooseBest E (filteredSummaries summaries) topic).2.2).length := by
      rw [hvideos_len]
      exact hidx_fn
    have hml : (chooseBest E (filteredSummaries summaries) topic).1
        < ((mkVideos (filteredNames names summaries) (filteredSummaries summaries)
            (chooseBest E (filteredSummaries summaries) topic).2.1
            (chooseBest E (filteredSummaries summaries) topic).2.2).map VideoEntry.name).length := by
      simpa using hvl
    rw [List.getD_eq_getElem _ default hvl, ← List.getElem_map VideoEntry.name,
      ← List.getD_eq_getElem _ "" hml,
      mkVideos_map_name _ _ _ _ hfn_len.symm hscs_len hds_len]

theorem c2_choose_best_witness :
    validIndices ["good", "ERROR: x"] ≠ []
    ∧ C2Prop ⟨fun _ => []⟩ "t" ["a", "b"] ["good", "ERROR: x"] :=
  ⟨by decide, c2_choose_best ⟨fun _ => []⟩ "t" ["a", "b"] ["good", "ERROR: x"] (by decide)⟩

/-! ### Claim C9 — permutation invariance of scoring -/

/-- Equality established for claim C9: scoring the reindexed summary list
yields exactly the reindexed score and diagnostics lists. -/
def C9Prop (E : EmbedSvc) (topic : String) (l : List String) (σ : List ℕ) : Prop :=
  computeScores E (σ.map (fun i => l.getD i "")) topic
    = (σ.map (fun i => (computeScores E l topic).1.getD i 0),
       σ.map (fun i => (computeScores E l topic).2.getD i default))

theorem c9_reindex_aux {β : Type} (f : String → β) (l : List String) (σ : List ℕ)
    (d : β) (hmem : ∀ i ∈ σ, i < l.length) :
    (σ.map (fun i => l.getD i "")).map f = σ.map (fun i => (l.map f).getD i d) := by
  rw [List.map_map]
  apply List.map_congr_left
  intro i hi
  have h := hmem i hi
  have hm : i < (l.map f).length := by simpa using h
  show f (l.getD i "") = (l.map f).getD i d
  rw [List.getD_eq_getElem _ _ hm, List.getElem_map, ← List.getD_eq_getElem l "" h]

/-- Claim C9: for every list of summaries and every permutation of its index
range, scoring the permuted list produces exactly the permuted lists of
scores and diagnostics — each summary's score depends only on its own text
and the shared topic, not on its position or on the other summaries. -/
theorem c9_permutation (E : EmbedSvc) (topic : String) (l : List String) (σ : List ℕ)
    (hσ : σ.Perm (List.range l.length)) : C9Prop E topic l σ := by
  have hmem : ∀ i ∈ σ, i < l.length := fun i hi => List.mem_range.mp (hσ.mem_iff.mp hi)
  unfold C9Prop computeScores
  exact Prod.ext (c9_reindex_aux (itemScore E topic) l σ 0 hmem)
    (c9_reindex_aux (itemDetails E topic) l σ default hmem)

theorem c9_permutation_witness :
    ([1, 0] : List ℕ).Perm (List.range (["a", "bb"] : List String).length)
    ∧ C9Prop ⟨fun _ => []⟩ "t" ["a", "bb"] [1, 0] :=
  ⟨by decide, c9_permutation ⟨fun _ => []⟩ "t" ["a", "bb"] [1, 0] (by decide)⟩

/-! ### Claim C8 — bounded polling in the download fallback -/

theorem pollLoop_congr (env env' : PollEnv) :
    ∀ (f i : ℕ) (last : Option String),
      (∀ j, i ≤ j → j < i + f → env.found j = env'.found j ∧ env.replaceOk j = env'.replaceOk j) →
      pollLoop env f i last = pollLoop env' f i last := by
  intro f
  induction f with
  | zero => intro i last _; rfl
  | succ f ih =>
    intro i last h
    have h0 := h i le_rfl (by omega)
    rw [pollLoop, pollLoop, ← h0.1, ← h0.2]
    cases hf : env.found i with
    | none => exact ih (i + 1) none (fun j hj1 hj2 => h j (by omega) (by omega))
    | some p =>
      by_cases hr : env.replaceOk i
      · simp [hr]
      · simp only [hr, if_false, Bool.false_eq_true]
        exact ih (i + 1) (some p) (fun j hj1 hj2 => h j (by omega) (by omega))

theorem pollLoop_none (env : PollEnv) :
    ∀ (f i : ℕ), (∀ j, j < i + f → env.found j = none) →
      pollLoop env f i none = (none, false) := by
  intro f
  induction f with
  | zero => intro i _; rfl
  | succ f ih =>
    intro i h
    rw [pollLoop, h i (by omega)]
    exact ih (i + 1) (fun j hj => h j (by omega))

/-- Claim C8, amended: the polling fallback observes the filesystem for at
most the 10 loop iterations — the outcome depends only on the first 10 poll
observations — and when the file never appears within that bound the
function does NOT raise: it returns `Except.ok` with the expected (absent)
path. -/
theorem c8_bounded_poll (env env' : PollEnv) (p : String)
    (hagree : ∀ i, i < 10 → env.found i = env'.found i ∧ env.replaceOk i = env'.replaceOk i)
    (h0 : env.expectedExists0 = env'.expectedExists0)
    (hf : env.expectedFinal = env'.expectedFinal) :
    downloadAcquire env p = downloadAcquire env' p
    ∧ ((∀ i, i < 10 → env.found i = none) → env.expectedExists0 = false →
        env.expectedFinal = false → downloadAcquire env p = Except.ok p) := by
  constructor
  · have hpoll : pollLoop env 10 0 none = pollLoop env' 10 0 none :=
      pollLoop_congr env env' 10 0 none (fun j h1 h2 => hagree j (by omega))
    simp [downloadAcquire, downloadResolve, h0, hf, hpoll]
  · intro hnone h0' hf'
    have hpoll : pollLoop env 10 0 none = (none, false) :=
      pollLoop_none env 10 0 (fun j hj => hnone j (by omega))
    simp [downloadAcquire, downloadResolve, h0', hf', hpoll]

/-- Polling environment in which the downloaded file never becomes visible:
every glob comes back empty, no rename ever succeeds, and the expected path
never exists. -/
def neverEnv : PollEnv := ⟨fun _ => none, fun _ => false, false, false⟩

/-- Counterexample to claim C8 as stated: in an environment where the
fetched file never appears within the polling bound, `_download_with_yt_dlp`
still returns normally with the expected path (pointing at a non-existent
file) — it does not give up with an `AcquisitionError`; indeed no error
branch exists in the polling fallback. -/
theorem c8_counterexample :
    downloadAcquire neverEnv "expected.mp4" = Except.ok "expected.mp4" := rfl

theorem c8_bounded_poll_witness :
    (∀ i, i < 10 → neverEnv.found i = none)
    ∧ downloadAcquire neverEnv "video.mp4" = Except.ok "video.mp4" :=
  ⟨fun _ _ => rfl,
   (c8_bounded_poll neverEnv neverEnv "video.mp4" (fun _ _ => ⟨rfl, rfl⟩) rfl rfl).2
     (fun _ _ => rfl) rfl rfl⟩

/-! ### Claim C1 — response partition of the URL endpoint -/

/-- Claim C1 fails on the code: one URL whose download succeeds, whose
"unlocked copy" fails, and whose processing succeeds yields a response with
one `videos` entry AND one `skipped` entry (the same source under its
temporary path name, tagged `copy_failed`) — 2 entries for a batch of
N = 1 sources, violating `len(videos) + len(skipped) == N` and the
exactly-one-list invariant. -/
theorem c1_partition_failure :
    ((compare_videos_urls ⟨fun _ => [1]⟩ "topic" ["u"] [Except.ok ("p", "t")]
        (fun _ => none) (fun _ => "s")).map
      (fun r => (r.videos.length, r.skipped.length, (r.videos.getD 0 default).name,
        (r.skipped.getD 0 default).name)))
      = some (1, 1, "t", "p")
    ∧ (["u"] : List String).length = 1 :=
  ⟨rfl, rfl⟩

end VideoSummarization
